import Mathlib

/-!
# RingBuffer: a shallow embedding of `src/RingBuffer/RingBuffer.h`

The class template `RingBuffer<T>` is embedded as a record of its data members
(the mutex apart: every operation is modelled as one atomic step, which is what
the `std::lock_guard` of `Put`, `Pull` and `Reset` gives a single caller).

* `size_t` values are natural numbers; `+` and `-` wrap modulo `2 ^ 64`.
* `buf_` is a list of slots. Reading or writing a slot outside the allocation, and
  `%` with a zero divisor, are undefined behaviour in C++: the embedding makes
  them explicit faults, so `Put` and `Pull` return an `Except`.
* `T()` is `default`.
-/

namespace RingBuffer

/-- What the C++ program leaves undefined, and (for the loops of the driver, which
are run with fuel) the exhaustion of the fuel. -/
inductive Fault where
  | outOfBounds
  | divByZero
  | outOfFuel
  deriving DecidableEq, Repr

/-- Number of values of `size_t` (64 bit). -/
def SIZE_MOD : Nat := 18446744073709551616

/-- Addition of `size_t`: wraps. -/
def addSz (a b : Nat) : Nat := (a + b) % SIZE_MOD

/-- Subtraction of `size_t`: wraps. -/
def subSz (a b : Nat) : Nat := (a % SIZE_MOD + (SIZE_MOD - b % SIZE_MOD)) % SIZE_MOD

/-- Remainder `a % b` of `size_t`: a fault when `b` is zero. -/
def modSz (a b : Nat) : Except Fault Nat :=
  if b = 0 then .error .divByZero else .ok (a % b)

/-- Read of `buf[i]`: a fault outside the allocation. -/
def load {T : Type} (buf : List T) (i : Nat) : Except Fault T :=
  match buf[i]? with
  | some v => .ok v
  | none => .error .outOfBounds

/-- Write `buf[i] = v`: a fault outside the allocation. -/
def store {T : Type} (buf : List T) (i : Nat) (v : T) : Except Fault (List T) :=
  if i < buf.length then .ok (buf.set i v) else .error .outOfBounds

end RingBuffer

/-- Data members of `RingBuffer<T>` (lines 139-150), `mutex_` left out. -/
structure RingBuffer (T : Type) where
  buf_ : List T
  head_ : Nat
  tail_ : Nat
  max_size_ : Nat
  full_ : Bool

namespace RingBuffer

variable {T : Type}

/-- Constructor `RingBuffer(size_t size)`: `buf_` is `new T[size]`, `max_size_` is
`size`, and the default member initialisers give `head_ = 0`, `tail_ = 0`,
`full_ = 0`. The slots of `new T[size]` are default-initialised (indeterminate for
a scalar `T`): `mem i` is whatever slot `i` holds after the allocation. -/
def construct (size : Nat) (mem : Nat → T) : RingBuffer T :=
  { buf_ := (List.range size).map mem
    head_ := 0
    tail_ := 0
    max_size_ := size
    full_ := false }

/-- `Reset()`: `head_ = tail_; full_ = false;`. -/
def Reset (rb : RingBuffer T) : RingBuffer T :=
  { rb with head_ := rb.tail_, full_ := false }

/-- `IsEmpty()`: `!full_ && (head_ == tail_)`. -/
def IsEmpty (rb : RingBuffer T) : Bool :=
  !rb.full_ && decide (rb.head_ = rb.tail_)

/-- `IsFull()`: `full_`. -/
def IsFull (rb : RingBuffer T) : Bool :=
  rb.full_

/-- `GetMaxSize()`: `max_size_`. -/
def GetMaxSize (rb : RingBuffer T) : Nat :=
  rb.max_size_

/-- `GetSize()` (lines 80-97). -/
def GetSize (rb : RingBuffer T) : Nat :=
  if !rb.full_ then
    if rb.head_ ≥ rb.tail_ then
      subSz rb.head_ rb.tail_
    else
      subSz (addSz rb.max_size_ rb.head_) rb.tail_
  else
    rb.max_size_

/-- `Put(T item)` (lines 104-118): the statements in source order. -/
def Put (rb : RingBuffer T) (item : T) : Except Fault (RingBuffer T) := do
  let buf ← store rb.buf_ rb.head_ item
  let tail ← if rb.full_ then modSz (addSz rb.tail_ 1) rb.max_size_ else pure rb.tail_
  let head ← modSz (addSz rb.head_ 1) rb.max_size_
  pure { rb with buf_ := buf, tail_ := tail, head_ := head, full_ := decide (head = tail) }

/-- `Pull()` (lines 124-137): the returned value and the state after the call. -/
def Pull [Inhabited T] (rb : RingBuffer T) : Except Fault (T × RingBuffer T) :=
  if rb.IsEmpty then
    pure (default, rb)
  else do
    let val ← load rb.buf_ rb.tail_
    let tail ← modSz (addSz rb.tail_ 1) rb.max_size_
    pure (val, { rb with full_ := false, tail_ := tail })

/-- One call of a mutating member function. -/
inductive Op (T : Type) where
  | put (item : T)
  | pull
  | reset

/-- A caller's call sequence, in order, from state `rb`: the values the `Pull`
calls returned, in order, and the final state. -/
def run [Inhabited T] (rb : RingBuffer T) : List (Op T) → Except Fault (List T × RingBuffer T)
  | [] => pure ([], rb)
  | Op.put item :: ops => do
      let rb1 ← rb.Put item
      run rb1 ops
  | Op.pull :: ops => do
      let (v, rb1) ← rb.Pull
      let (vs, rb2) ← run rb1 ops
      pure (v :: vs, rb2)
  | Op.reset :: ops => run rb.Reset ops

/-! ## The bounded drop-oldest queue of the specification -/

/-- Put of the bounded queue of capacity `C`: append `x`, and drop the first element
if the length was already `C`. -/
def specPut (C : Nat) (q : List T) (x : T) : List T :=
  if q.length = C then (q ++ [x]).drop 1 else q ++ [x]

/-- Pull of the bounded queue: remove and return the first element, or return
the default value and change nothing when the queue is empty. -/
def specPull [Inhabited T] : List T → T × List T
  | [] => (default, [])
  | a :: q => (a, q)

/-- The bounded queue run on a call sequence: the values pulled, and the final queue. -/
def specRun [Inhabited T] (C : Nat) (q : List T) : List (Op T) → List T × List T
  | [] => ([], q)
  | Op.put item :: ops => specRun C (specPut C q item) ops
  | Op.pull :: ops =>
      ((specPull q).1 :: (specRun C (specPull q).2 ops).1, (specRun C (specPull q).2 ops).2)
  | Op.reset :: ops => specRun C [] ops

/-! ## The buffer state represents a queue -/

/-- State `rb` of a buffer of capacity `C` holds the queue `q`: the cursors are in
range, `head_` is `q.length` slots after `tail_` (cyclically), `full_` says whether
`q` has `C` elements, and the slots from `tail_` on hold the elements of `q`. -/
structure Holds (C : Nat) (rb : RingBuffer T) (q : List T) : Prop where
  capW : C < SIZE_MOD
  cap : rb.max_size_ = C
  len : rb.buf_.length = C
  tail_lt : rb.tail_ < C
  size_le : q.length ≤ C
  head_eq : rb.head_ = (rb.tail_ + q.length) % C
  full_iff : rb.full_ = true ↔ q.length = C
  slots : ∀ i, i < q.length → rb.buf_[(rb.tail_ + i) % C]? = q[i]?

/-! ## The driver `src/example.cpp` -/

/-- One line the driver prints: `added: %i`, `Getting: %i`, `Emptying buffer`,
`Got %d`. -/
inductive Event where
  | added (tmp : Int)
  | getting (v : Int)
  | emptying
  | got (pulled : Int)
  deriving DecidableEq, Repr

/-- The `for` loop of `main` (lines 8-19) with `n` iterations left: `Put(tmp)` with
`tmp = count`, then one `Pull()` if `IsFull()`, then `count++`. Returns what
was printed and the buffer after the loop. -/
def mainLoop : Nat → Int → RingBuffer Int → Except Fault (List Event × RingBuffer Int)
  | 0, _, buffer => pure ([], buffer)
  | n + 1, count, buffer => do
      let tmp := count
      let b1 ← buffer.Put tmp
      if b1.IsFull then
        let (v, b2) ← b1.Pull
        let (evs, b3) ← mainLoop n (count + 1) b2
        pure (Event.added tmp :: Event.getting v :: evs, b3)
      else
        let (evs, b3) ← mainLoop n (count + 1) b1
        pure (Event.added tmp :: evs, b3)

/-- The `while` loop of `main` (lines 21-25): `Pull()` until the buffer is empty.
The loop is run with fuel; running out of it is the fault `outOfFuel`. The source
writes the test `!buffer.Empty()`; the class has no member `Empty`, the test is
read as `!buffer.IsEmpty()`. -/
def drainLoop : Nat → RingBuffer Int → Except Fault (List Event × RingBuffer Int)
  | 0, buffer => if buffer.IsEmpty then pure ([], buffer) else .error .outOfFuel
  | fuel + 1, buffer =>
      if buffer.IsEmpty then pure ([], buffer)
      else do
        let (pulled, b1) ← buffer.Pull
        let (evs, b2) ← drainLoop fuel b1
        pure (Event.got pulled :: evs, b2)

/-- The function `main` of the driver: a buffer of capacity 10, the `for` loop of 20
iterations from `count = 0`, then the draining loop. -/
def main (mem : Nat → Int) (fuel : Nat) : Except Fault (List Event × RingBuffer Int) := do
  let buffer := construct 10 mem
  let (evs1, b1) ← mainLoop 20 0 buffer
  let (evs2, b2) ← drainLoop fuel b1
  pure (evs1 ++ Event.emptying :: evs2, b2)

/-- What the `for` loop of the driver prints: `added` for 0 to 19, and from the 10th
`Put` on a `Getting` line after each `added` line. -/
def loopTrace : List Event :=
  [Event.added 0, Event.added 1, Event.added 2, Event.added 3, Event.added 4,
    Event.added 5, Event.added 6, Event.added 7, Event.added 8, Event.added 9,
    Event.getting 0, Event.added 10, Event.getting 1, Event.added 11, Event.getting 2,
    Event.added 12, Event.getting 3, Event.added 13, Event.getting 4, Event.added 14,
    Event.getting 5, Event.added 15, Event.getting 6, Event.added 16, Event.getting 7,
    Event.added 17, Event.getting 8, Event.added 18, Event.getting 9, Event.added 19,
    Event.getting 10]

/-- What the draining loop of the driver prints. -/
def drainTrace : List Event :=
  [Event.got 11, Event.got 12, Event.got 13, Event.got 14, Event.got 15, Event.got 16,
    Event.got 17, Event.got 18, Event.got 19]

/-- State of the driver's buffer when the `for` loop ends. -/
def restingState : RingBuffer Int :=
  ⟨[10, 11, 12, 13, 14, 15, 16, 17, 18, 19], 0, 1, 10, false⟩

/-- State of the driver's buffer when the draining loop ends. -/
def drainedState : RingBuffer Int :=
  ⟨[10, 11, 12, 13, 14, 15, 16, 17, 18, 19], 0, 0, 10, false⟩

/-! ## What a caller observes -/

/-- What a caller can observe of a call sequence: the fault, or the values the
`Pull` calls returned and the results of `GetSize()`, `IsEmpty()` and `IsFull()` on
the state reached. -/
def observe (r : Except Fault (List T × RingBuffer T)) :
    Except Fault (List T × Nat × Bool × Bool) :=
  match r with
  | .error e => .error e
  | .ok (out, rb) => .ok (out, rb.GetSize, rb.IsEmpty, rb.IsFull)

/-! ## Arithmetic of the cursors -/

theorem addSz_of_lt {a b : Nat} (h : a + b < SIZE_MOD) : addSz a b = a + b := by
  unfold addSz
  exact Nat.mod_eq_of_lt h

theorem subSz_self (a : Nat) : subSz a a = 0 := by
  unfold subSz SIZE_MOD
  omega

theorem subSz_of_le {a b : Nat} (hb : b ≤ a) (ha : a < SIZE_MOD) : subSz a b = a - b := by
  unfold subSz
  unfold SIZE_MOD at *
  omega

theorem subSz_addSz_wrap {c h t : Nat} (hc : c < SIZE_MOD) (hh : h < t) (ht : t < c) :
    subSz (addSz c h) t = c + h - t := by
  unfold subSz addSz
  unfold SIZE_MOD at *
  omega

theorem add_mod_cases {C a b : Nat} (ha : a < C) (hb : b ≤ C) :
    (a + b) % C = if a + b < C then a + b else a + b - C := by
  split
  · next h => exact Nat.mod_eq_of_lt h
  · next h =>
    rw [Nat.mod_eq_sub_mod (by omega)]
    exact Nat.mod_eq_of_lt (by omega)

theorem add_mod_eq_self_iff {C a b : Nat} (ha : a < C) (hb : b ≤ C) :
    (a + b) % C = a ↔ b = 0 ∨ b = C := by
  rw [add_mod_cases ha hb]
  split <;> omega

theorem add_mod_inj {C a i j : Nat} (ha : a < C) (hi : i < C) (hj : j < C)
    (h : (a + i) % C = (a + j) % C) : i = j := by
  rw [add_mod_cases ha (Nat.le_of_lt hi), add_mod_cases ha (Nat.le_of_lt hj)] at h
  split at h <;> split at h <;> omega

/-! ## The operations on a state with valid cursors -/

theorem Put_eq_ok (rb : RingBuffer T) (item : T) (hh : rb.head_ < rb.buf_.length)
    (hm : rb.max_size_ ≠ 0) (hhw : rb.head_ + 1 < SIZE_MOD) (htw : rb.tail_ + 1 < SIZE_MOD) :
    rb.Put item = .ok
      { buf_ := rb.buf_.set rb.head_ item
        head_ := (rb.head_ + 1) % rb.max_size_
        tail_ := if rb.full_ then (rb.tail_ + 1) % rb.max_size_ else rb.tail_
        max_size_ := rb.max_size_
        full_ := decide ((rb.head_ + 1) % rb.max_size_ =
          if rb.full_ then (rb.tail_ + 1) % rb.max_size_ else rb.tail_) } := by
  cases hf : rb.full_ <;>
    simp [Put, store, modSz, hh, hm, hf, addSz_of_lt hhw, addSz_of_lt htw, bind, Except.bind,
      pure, Except.pure]

theorem Pull_eq_default [Inhabited T] (rb : RingBuffer T) (he : rb.IsEmpty = true) :
    rb.Pull = .ok (default, rb) := by
  simp [Pull, he, pure, Except.pure]

theorem Pull_eq_ok [Inhabited T] (rb : RingBuffer T) (v : T) (he : rb.IsEmpty = false)
    (hv : rb.buf_[rb.tail_]? = some v) (hm : rb.max_size_ ≠ 0)
    (htw : rb.tail_ + 1 < SIZE_MOD) :
    rb.Pull = .ok (v, { rb with full_ := false, tail_ := (rb.tail_ + 1) % rb.max_size_ }) := by
  simp [Pull, he, load, hv, modSz, hm, addSz_of_lt htw, bind, Except.bind, pure, Except.pure]

theorem Holds.pos {C : Nat} {rb : RingBuffer T} {q : List T} (h : Holds C rb q) : 0 < C :=
  Nat.lt_of_le_of_lt (Nat.zero_le _) h.tail_lt

theorem Holds.head_lt {C : Nat} {rb : RingBuffer T} {q : List T} (h : Holds C rb q) :
    rb.head_ < C := by
  rw [h.head_eq]
  exact Nat.mod_lt _ h.pos

theorem Holds.GetSize_eq {C : Nat} {rb : RingBuffer T} {q : List T} (h : Holds C rb q) :
    rb.GetSize = q.length := by
  have hC := h.capW
  have ht := h.tail_lt
  have hl := h.size_le
  have hf := h.full_iff
  have hh := h.head_eq
  unfold GetSize
  cases hfull : rb.full_
  · have hne : q.length ≠ C := fun e => by simp [hf.mpr e] at hfull
    rw [add_mod_cases ht hl] at hh
    simp only [Bool.not_false, if_true]
    split at hh
    · rw [if_pos (by omega), subSz_of_le (by omega) (by omega)]
      omega
    · rw [if_neg (by omega), h.cap, subSz_addSz_wrap hC (by omega) ht]
      omega
  · simp only [Bool.not_true, Bool.false_eq_true, if_false]
    rw [h.cap]
    exact (hf.mp hfull).symm

theorem Holds.IsFull_eq {C : Nat} {rb : RingBuffer T} {q : List T} (h : Holds C rb q) :
    rb.IsFull = decide (q.length = C) := by
  unfold IsFull
  cases hfull : rb.full_
  · have hne : q.length ≠ C := fun e => by simp [h.full_iff.mpr e] at hfull
    simp [hne]
  · simp [h.full_iff.mp hfull]

theorem Holds.IsEmpty_eq {C : Nat} {rb : RingBuffer T} {q : List T} (h : Holds C rb q) :
    rb.IsEmpty = q.isEmpty := by
  have ht := h.tail_lt
  have hl := h.size_le
  have hf := h.full_iff
  have hself := add_mod_eq_self_iff ht hl
  rw [← h.head_eq] at hself
  unfold IsEmpty
  cases q with
  | nil =>
    have hnf : rb.full_ = false := by
      cases hfull : rb.full_
      · rfl
      · have := hf.mp hfull
        simp at this
        omega
    simp [hnf, hself]
  | cons a q =>
    cases hfull : rb.full_
    · have hne : (a :: q).length ≠ C := fun e => by simp [hf.mpr e] at hfull
      have : rb.head_ ≠ rb.tail_ := fun e => by
        rcases hself.mp e with h0 | h1
        · simp at h0
        · exact hne h1
      simp [this]
    · simp

theorem Holds_construct {C : Nat} (hC : 0 < C) (hW : C < SIZE_MOD) (mem : Nat → T) :
    Holds C (construct C mem) [] where
  capW := hW
  cap := rfl
  len := by simp [construct]
  tail_lt := hC
  size_le := Nat.zero_le _
  head_eq := by simp [construct]
  full_iff := by
    simp [construct]
    omega
  slots := by simp

theorem Holds_Reset {C : Nat} {rb : RingBuffer T} {q : List T} (h : Holds C rb q) :
    Holds C rb.Reset [] where
  capW := h.capW
  cap := h.cap
  len := h.len
  tail_lt := h.tail_lt
  size_le := Nat.zero_le _
  head_eq := by
    simp only [Reset, List.length_nil, Nat.add_zero]
    exact (Nat.mod_eq_of_lt h.tail_lt).symm
  full_iff := by
    have := h.pos
    simp [Reset]
    omega
  slots := by simp

theorem Holds_Put {C : Nat} {rb : RingBuffer T} {q : List T} (h : Holds C rb q) (x : T) :
    ∃ rb1, rb.Put x = .ok rb1 ∧ Holds C rb1 (specPut C q x) := by
  have hC := h.capW
  have hpos := h.pos
  have ht := h.tail_lt
  have hhl := h.head_lt
  have hl := h.size_le
  have hcap := h.cap
  have hlen := h.len
  have hput := Put_eq_ok rb x (by omega) (by omega) (by omega) (by omega)
  refine ⟨_, hput, ?_⟩
  by_cases hfull : q.length = C
  · -- the buffer is full: the slot at `tail_` is overwritten and both cursors advance
    have hf : rb.full_ = true := h.full_iff.mpr hfull
    have hht : rb.head_ = rb.tail_ := by
      rw [h.head_eq, hfull, Nat.add_mod_right]
      exact Nat.mod_eq_of_lt ht
    have hq2 : (specPut C q x).length = C := by
      simp [specPut, hfull]
    have hmt : (rb.tail_ + 1) % C < C := Nat.mod_lt _ hpos
    refine ⟨hC, hcap, ?_, ?_, ?_, ?_, ?_, ?_⟩
    · simp [hlen]
    · simpa [hf, hcap] using hmt
    · omega
    · simp only [hf, hcap, if_true, hq2, hht, Nat.add_mod_right, Nat.mod_mod]
    · simp [hf, hcap, hq2, hht]
    · intro i hi
      rw [hq2] at hi
      simp only [hf, hcap, if_true, Nat.mod_add_mod]
      have hidx : rb.tail_ + 1 + i = rb.tail_ + (i + 1) := by omega
      rw [hidx]
      simp only [specPut, hfull, if_true, List.getElem?_drop]
      by_cases hlast : i + 1 = C
      · have e : (rb.tail_ + (i + 1)) % C = rb.head_ := by
          rw [hht]
          exact (add_mod_eq_self_iff ht (by omega)).mpr (Or.inr hlast)
        rw [e, List.getElem?_set_self (by omega), List.getElem?_append_right (by omega)]
        have : 1 + i - q.length = 0 := by omega
        simp [this]
      · have e : rb.head_ ≠ (rb.tail_ + (i + 1)) % C := by
          rw [hht]
          intro e
          rcases (add_mod_eq_self_iff ht (by omega)).mp e.symm with h0 | h1 <;> omega
        rw [List.getElem?_set_ne e, List.getElem?_append_left (by omega), h.slots (i + 1) (by omega)]
        congr 1
        omega
  · -- there is room: the slot at `head_` is written and `head_` advances
    have hf : rb.full_ = false := by
      cases hb : rb.full_
      · rfl
      · exact absurd (h.full_iff.mp hb) hfull
    have hq2 : (specPut C q x).length = q.length + 1 := by
      simp [specPut, hfull]
    have hhead : (rb.head_ + 1) % C = (rb.tail_ + (q.length + 1)) % C := by
      rw [h.head_eq, Nat.mod_add_mod]
      congr 1
    refine ⟨hC, hcap, ?_, ?_, ?_, ?_, ?_, ?_⟩
    · simp [hlen]
    · simpa [hf] using ht
    · omega
    · simp only [hf, hcap, hq2, Bool.false_eq_true, if_false]
      exact hhead
    · simp only [hf, hcap, hq2, Bool.false_eq_true, if_false, decide_eq_true_eq, hhead]
      rw [add_mod_eq_self_iff ht (by omega)]
      omega
    · intro i hi
      rw [hq2] at hi
      simp only [hf, Bool.false_eq_true, if_false, specPut, hfull]
      by_cases hlast : i = q.length
      · have e : (rb.tail_ + i) % C = rb.head_ := by rw [h.head_eq, hlast]
        rw [e, List.getElem?_set_self (by omega), List.getElem?_append_right (by omega)]
        have : i - q.length = 0 := by omega
        simp [this]
      · have e : rb.head_ ≠ (rb.tail_ + i) % C := by
          rw [h.head_eq]
          intro e
          exact hlast (add_mod_inj ht (by omega) (by omega) e).symm
        rw [List.getElem?_set_ne e, List.getElem?_append_left (by omega), h.slots i (by omega)]

theorem Holds_Pull [Inhabited T] {C : Nat} {rb : RingBuffer T} {q : List T} (h : Holds C rb q) :
    ∃ rb1, rb.Pull = .ok ((specPull q).1, rb1) ∧ Holds C rb1 (specPull q).2 := by
  have hC := h.capW
  have hpos := h.pos
  have ht := h.tail_lt
  have hl := h.size_le
  have hcap := h.cap
  have hemp := h.IsEmpty_eq
  cases q with
  | nil => exact ⟨rb, Pull_eq_default rb (by simpa using hemp), h⟩
  | cons a q =>
    have hv : rb.buf_[rb.tail_]? = some a := by
      have := h.slots 0 (by simp)
      simpa [Nat.mod_eq_of_lt ht] using this
    have hpull := Pull_eq_ok rb a (by simpa using hemp) hv (by omega) (by omega)
    refine ⟨_, hpull, ?_⟩
    simp only [List.length_cons] at hl
    refine ⟨hC, hcap, h.len, ?_, ?_, ?_, ?_, ?_⟩
    · simpa [hcap] using Nat.mod_lt _ hpos
    · simp only [specPull]
      omega
    · simp only [specPull, hcap, Nat.mod_add_mod]
      rw [h.head_eq]
      congr 1
      simp only [List.length_cons]
      omega
    · simp only [specPull]
      constructor
      · intro hb
        cases hb
      · intro hb
        omega
    · intro i hi
      simp only [specPull] at hi
      simp only [specPull, hcap, Nat.mod_add_mod]
      have := h.slots (i + 1) (by simp; omega)
      have hidx : rb.tail_ + 1 + i = rb.tail_ + (i + 1) := by omega
      rw [hidx, this]
      simp

/-! ## Call sequences -/

theorem run_refines [Inhabited T] {C : Nat} (ops : List (Op T)) :
    ∀ {rb : RingBuffer T} {q : List T}, Holds C rb q →
      ∃ rb1, run rb ops = .ok ((specRun C q ops).1, rb1) ∧ Holds C rb1 (specRun C q ops).2 := by
  induction ops with
  | nil =>
    intro rb q h
    exact ⟨rb, rfl, h⟩
  | cons op ops ih =>
    intro rb q h
    cases op with
    | put item =>
      obtain ⟨rb1, hput, h1⟩ := Holds_Put h item
      obtain ⟨rb2, hrun, h2⟩ := ih h1
      exact ⟨rb2, by simp [run, specRun, hput, hrun, bind, Except.bind], h2⟩
    | pull =>
      obtain ⟨rb1, hpull, h1⟩ := Holds_Pull h
      obtain ⟨rb2, hrun, h2⟩ := ih h1
      exact ⟨rb2, by simp [run, specRun, hpull, hrun, bind, Except.bind, pure, Except.pure], h2⟩
    | reset =>
      obtain ⟨rb2, hrun, h2⟩ := ih (Holds_Reset h)
      exact ⟨rb2, by simp [run, specRun, hrun], h2⟩

theorem specPut_length_le {C : Nat} {q : List T} (x : T) (h : q.length ≤ C) :
    (specPut C q x).length ≤ C := by
  unfold specPut
  split <;> simp <;> omega

theorem specRun_puts [Inhabited T] (C : Nat) (xs : List T) :
    ∀ q : List T, specRun C q (xs.map Op.put) = ([], xs.foldl (specPut C) q) := by
  induction xs with
  | nil => intro q; rfl
  | cons x xs ih => intro q; simp [specRun, ih]

theorem foldl_specPut {C : Nat} (xs : List T) :
    ∀ q : List T, q.length ≤ C →
      xs.foldl (specPut C) q = (q ++ xs).drop ((q ++ xs).length - C) := by
  induction xs with
  | nil =>
    intro q hq
    have : q.length - C = 0 := by omega
    simp [this]
  | cons x xs ih =>
    intro q hq
    rw [List.foldl_cons, ih _ (specPut_length_le x hq)]
    unfold specPut
    split
    · next hfull =>
      have e1 : (q ++ [x]).drop 1 ++ xs = (q ++ x :: xs).drop 1 := by
        rw [← List.drop_append_of_le_length (by simp)]
        simp
      rw [e1, List.drop_drop]
      congr 1
      simp
      omega
    · next hfull =>
      simp

theorem specRun_pulls [Inhabited T] (C : Nat) :
    ∀ q : List T, specRun C q (List.replicate q.length Op.pull) = (q, []) := by
  intro q
  induction q with
  | nil => rfl
  | cons a q ih => simp [List.replicate_succ, specRun, specPull, ih]

/-- After `Put` of each item of `xs` on a fresh buffer, the state holds the last
`min xs.length C` items of `xs`. -/
theorem run_puts [Inhabited T] {C : Nat} (hC : 0 < C) (hW : C < SIZE_MOD) (mem : Nat → T)
    (xs : List T) :
    ∃ rb, run (construct C mem) (xs.map Op.put) = .ok ([], rb) ∧
      Holds C rb (xs.drop (xs.length - C)) := by
  obtain ⟨rb, hrun, h⟩ := run_refines (xs.map Op.put) (Holds_construct hC hW mem)
  rw [specRun_puts, foldl_specPut xs [] (Nat.zero_le _)] at hrun h
  exact ⟨rb, by simpa using hrun, by simpa using h⟩

/-- As many `Pull` calls as the queue has elements return the queue, in order,
and leave the buffer empty. -/
theorem run_pulls [Inhabited T] {C : Nat} {rb : RingBuffer T} {q : List T} (h : Holds C rb q) :
    ∃ rb1, run rb (List.replicate q.length Op.pull) = .ok (q, rb1) ∧ Holds C rb1 [] := by
  obtain ⟨rb1, hrun, h1⟩ := run_refines (List.replicate q.length Op.pull) h
  rw [specRun_pulls] at hrun h1
  exact ⟨rb1, hrun, h1⟩

/-- The draining loop on a state that holds `q`, with at least `q.length` fuel:
it prints the elements of `q` in order and stops on an empty buffer. -/
theorem drainLoop_holds {C : Nat} (fuel : Nat) :
    ∀ {rb : RingBuffer Int} {q : List Int}, Holds C rb q → q.length ≤ fuel →
      ∃ rb1, drainLoop fuel rb = .ok (q.map Event.got, rb1) ∧ Holds C rb1 [] := by
  induction fuel with
  | zero =>
    intro rb q h hq
    have hnil : q = [] := List.length_eq_zero.mp (by omega)
    subst hnil
    have he : rb.IsEmpty = true := by simpa using h.IsEmpty_eq
    exact ⟨rb, by simp [drainLoop, he, pure, Except.pure], h⟩
  | succ fuel ih =>
    intro rb q h hq
    cases q with
    | nil =>
      have he : rb.IsEmpty = true := by simpa using h.IsEmpty_eq
      exact ⟨rb, by simp [drainLoop, he, pure, Except.pure], h⟩
    | cons a q =>
      have he : rb.IsEmpty = false := by simpa using h.IsEmpty_eq
      obtain ⟨rb1, hpull, h1⟩ := Holds_Pull h
      simp only [specPull] at hpull h1
      obtain ⟨rb2, hdrain, h2⟩ := ih h1 (by simpa using hq)
      exact ⟨rb2, by simp [drainLoop, he, hpull, hdrain, bind, Except.bind, pure, Except.pure], h2⟩

/-! ## The claims -/

/-- C1: for every capacity `C > 0` and every list `xs` of `k` items, `Put` of each
item of `xs` in order on a freshly constructed buffer returns, `GetSize()` is then
`min k C`, and `min k C` successive `Pull` calls return exactly the last `min k C`
items of `xs` in their order, after which `IsEmpty()` is true. In particular, for
`k = C + 1` the size after the overflowing `Put` is `C` and `C` calls of `Pull`
return the items `2 .. C + 1`. -/
theorem put_overflow_keeps_most_recent [Inhabited T] (C : Nat) (hC : 0 < C)
    (hW : C < SIZE_MOD) (mem : Nat → T) (xs : List T) :
    ∃ rb rb1, run (construct C mem) (xs.map Op.put) = .ok ([], rb) ∧
      rb.GetSize = min xs.length C ∧
      run rb (List.replicate (min xs.length C) Op.pull) =
        .ok (xs.drop (xs.length - min xs.length C), rb1) ∧
      rb1.IsEmpty = true ∧
      (xs.length = C + 1 →
        rb.GetSize = C ∧ run rb (List.replicate C Op.pull) = .ok (xs.drop 1, rb1)) := by
  obtain ⟨rb, hputs, h⟩ := run_puts hC hW mem xs
  obtain ⟨rb1, hpulls, h1⟩ := run_pulls h
  have hlen : (xs.drop (xs.length - C)).length = min xs.length C := by
    rw [List.length_drop]
    omega
  have hdrop : xs.length - min xs.length C = xs.length - C := by omega
  have hsize : rb.GetSize = min xs.length C := by rw [h.GetSize_eq, hlen]
  rw [hlen] at hpulls
  refine ⟨rb, rb1, hputs, hsize, ?_, ?_, ?_⟩
  · rw [hdrop]
    exact hpulls
  · simpa using h1.IsEmpty_eq
  · intro hk
    have hmin : min xs.length C = C := by omega
    have hone : xs.length - C = 1 := by omega
    rw [hmin] at hsize hpulls
    rw [hone] at hpulls
    exact ⟨hsize, hpulls⟩

/-- Witness of C1: capacity 2 and the three items 1, 2, 3 (one more than the capacity). -/
theorem put_overflow_keeps_most_recent_witness :
    0 < 2 ∧ 2 < SIZE_MOD ∧
    ∃ rb rb1, run (construct 2 (fun _ => (0 : Int))) ([1, 2, 3].map Op.put) = .ok ([], rb) ∧
      rb.GetSize = min [(1 : Int), 2, 3].length 2 ∧
      run rb (List.replicate (min [(1 : Int), 2, 3].length 2) Op.pull) =
        .ok ([(1 : Int), 2, 3].drop ([(1 : Int), 2, 3].length - min [(1 : Int), 2, 3].length 2), rb1) ∧
      rb1.IsEmpty = true ∧
      ([(1 : Int), 2, 3].length = 2 + 1 →
        rb.GetSize = 2 ∧ run rb (List.replicate 2 Op.pull) = .ok ([(1 : Int), 2, 3].drop 1, rb1)) :=
  ⟨by decide, by decide,
    put_overflow_keeps_most_recent 2 (by decide) (by decide) (fun _ => (0 : Int)) [1, 2, 3]⟩

/-- C2: for every capacity `C > 0` and every list `xs` of `N ≤ C` items, `N` calls of
`Put` on a freshly constructed buffer with no `Pull` return, after them
`GetSize() == N` and `IsFull() == (N == C)`, and the following `N` calls of `Pull`
return the items of `xs` in the order they were put. -/
theorem put_within_capacity_fifo [Inhabited T] (C : Nat) (hC : 0 < C) (hW : C < SIZE_MOD)
    (mem : Nat → T) (xs : List T) (hN : xs.length ≤ C) :
    ∃ rb rb1, run (construct C mem) (xs.map Op.put) = .ok ([], rb) ∧
      rb.GetSize = xs.length ∧
      rb.IsFull = decide (xs.length = C) ∧
      run rb (List.replicate xs.length Op.pull) = .ok (xs, rb1) := by
  obtain ⟨rb, hputs, h⟩ := run_puts hC hW mem xs
  have hzero : xs.length - C = 0 := by omega
  rw [hzero, List.drop_zero] at h
  obtain ⟨rb1, hpulls, _⟩ := run_pulls h
  exact ⟨rb, rb1, hputs, h.GetSize_eq, h.IsFull_eq, hpulls⟩

/-- Witness of C2: capacity 3 and the two items 7, 8. -/
theorem put_within_capacity_fifo_witness :
    0 < 3 ∧ 3 < SIZE_MOD ∧ [(7 : Int), 8].length ≤ 3 ∧
    ∃ rb rb1, run (construct 3 (fun _ => (0 : Int))) ([7, 8].map Op.put) = .ok ([], rb) ∧
      rb.GetSize = [(7 : Int), 8].length ∧
      rb.IsFull = decide ([(7 : Int), 8].length = 3) ∧
      run rb (List.replicate [(7 : Int), 8].length Op.pull) = .ok ([7, 8], rb1) :=
  ⟨by decide, by decide, by decide,
    put_within_capacity_fifo 3 (by decide) (by decide) (fun _ => (0 : Int)) [7, 8] (by decide)⟩

/-- C3: a freshly constructed buffer of capacity `C` has `GetMaxSize() == C`,
`GetSize() == 0`, `IsEmpty() == true` and `IsFull() == false`, with `head_ = 0`,
`tail_ = 0`, `full_ = false` and `C` slots of storage (for every `C`, so also for
every `C > 0`). -/
theorem construct_is_empty (C : Nat) (mem : Nat → T) :
    (construct C mem).GetMaxSize = C ∧ (construct C mem).GetSize = 0 ∧
      (construct C mem).IsEmpty = true ∧ (construct C mem).IsFull = false ∧
      (construct C mem).head_ = 0 ∧ (construct C mem).tail_ = 0 ∧
      (construct C mem).full_ = false ∧ (construct C mem).buf_.length = C := by
  refine ⟨rfl, ?_, rfl, rfl, rfl, rfl, rfl, ?_⟩
  · simp [GetSize, construct, subSz_self]
  · simp [construct]

/-- C4: `Pull` on an empty buffer is a no-op that returns the default value: in every
state with `IsEmpty()` true, `Pull` returns `T()` and the state it leaves is the
state it found (head, tail, full, capacity and storage), `GetSize()` is 0, and any
number `n` of repeated `Pull` calls returns `n` times the default value and leaves
the same state. -/
theorem pull_on_empty_is_noop [Inhabited T] (rb : RingBuffer T) (he : rb.IsEmpty = true)
    (n : Nat) :
    rb.Pull = .ok (default, rb) ∧ rb.GetSize = 0 ∧
      run rb (List.replicate n Op.pull) = .ok (List.replicate n default, rb) := by
  have hpull := Pull_eq_default rb he
  refine ⟨hpull, ?_, ?_⟩
  · simp only [IsEmpty, Bool.and_eq_true, Bool.not_eq_true', decide_eq_true_eq] at he
    simp [GetSize, he.1, he.2, subSz_self]
  · induction n with
    | zero => rfl
    | succ n ih => simp [List.replicate_succ, run, hpull, ih, bind, Except.bind, pure, Except.pure]

/-- Witness of C4: the buffer of capacity 3 after `Put(4)`, `Pull()`, pulled twice more. -/
theorem pull_on_empty_is_noop_witness :
    (⟨[4, 0, 0], 1, 1, 3, false⟩ : RingBuffer Int).IsEmpty = true ∧
    ((⟨[4, 0, 0], 1, 1, 3, false⟩ : RingBuffer Int).Pull = .ok (default, ⟨[4, 0, 0], 1, 1, 3, false⟩) ∧
      (⟨[4, 0, 0], 1, 1, 3, false⟩ : RingBuffer Int).GetSize = 0 ∧
      run (⟨[4, 0, 0], 1, 1, 3, false⟩ : RingBuffer Int) (List.replicate 2 Op.pull) =
        .ok (List.replicate 2 default, ⟨[4, 0, 0], 1, 1, 3, false⟩)) :=
  ⟨rfl, pull_on_empty_is_noop ⟨[4, 0, 0], 1, 1, 3, false⟩ rfl 2⟩

/-- C5 (Reset law): for every capacity `C > 0` and every finite sequence of `Put`,
`Pull` and `Reset` calls on a freshly constructed buffer, the sequence returns, and
`Reset` called afterwards yields `GetSize() == 0`, `IsEmpty() == true` and
`IsFull() == false`. -/
theorem reset_after_any_sequence [Inhabited T] (C : Nat) (hC : 0 < C) (hW : C < SIZE_MOD)
    (mem : Nat → T) (ops : List (Op T)) :
    ∃ out rb, run (construct C mem) ops = .ok (out, rb) ∧
      rb.Reset.GetSize = 0 ∧ rb.Reset.IsEmpty = true ∧ rb.Reset.IsFull = false := by
  obtain ⟨rb, hrun, h⟩ := run_refines ops (Holds_construct hC hW mem)
  have hr := Holds_Reset h
  exact ⟨_, rb, hrun, by simpa using hr.GetSize_eq, by simpa using hr.IsEmpty_eq, rfl⟩

/-- Witness of C5: capacity 2, a sequence that leaves the buffer full. -/
theorem reset_after_any_sequence_witness :
    0 < 2 ∧ 2 < SIZE_MOD ∧
    ∃ out rb, run (construct 2 (fun _ => (0 : Int)))
        [Op.put 1, Op.pull, Op.reset, Op.put 2, Op.put 3, Op.put 4] = .ok (out, rb) ∧
      rb.Reset.GetSize = 0 ∧ rb.Reset.IsEmpty = true ∧ rb.Reset.IsFull = false :=
  ⟨by decide, by decide,
    reset_after_any_sequence 2 (by decide) (by decide) (fun _ => (0 : Int))
      [Op.put 1, Op.pull, Op.reset, Op.put 2, Op.put 3, Op.put 4]⟩

/-- C6 as stated fails: in the state of a buffer of capacity 2 after `Put(1)`
(`head_ = 1`, `tail_ = 0`), `Reset` changes `head_` (to 0) and leaves `tail_` at 0,
which is not the head index from before the call. -/
theorem reset_moves_head_counterexample :
    (⟨[1, 0], 1, 0, 2, false⟩ : RingBuffer Int).Reset.head_ ≠
        (⟨[1, 0], 1, 0, 2, false⟩ : RingBuffer Int).head_ ∧
      (⟨[1, 0], 1, 0, 2, false⟩ : RingBuffer Int).Reset.tail_ ≠
        (⟨[1, 0], 1, 0, 2, false⟩ : RingBuffer Int).head_ ∧
      (construct 2 (fun _ => (0 : Int))).Put 1 = .ok ⟨[1, 0], 1, 0, 2, false⟩ := by
  refine ⟨by decide, by decide, rfl⟩

/-- C6, amended: `Reset` sets head to the current tail and full to false: for every
buffer state, after `Reset` the tail index is unchanged, head equals the tail index
from before the call, full is false, and storage and capacity are unchanged. -/
theorem reset_sets_head_to_tail (rb : RingBuffer T) :
    rb.Reset.tail_ = rb.tail_ ∧ rb.Reset.head_ = rb.tail_ ∧ rb.Reset.full_ = false ∧
      rb.Reset.buf_ = rb.buf_ ∧ rb.Reset.max_size_ = rb.max_size_ :=
  ⟨rfl, rfl, rfl, rfl, rfl⟩

/-- The `for` loop of the driver, evaluated: it returns, for every content of the
fresh storage. -/
theorem mainLoop_eval (mem : Nat → Int) :
    mainLoop 20 0 (construct 10 mem) = .ok (loopTrace, restingState) := by
  simp [mainLoop, Put, Pull, IsFull, IsEmpty, construct, store, load, modSz, addSz, SIZE_MOD,
    bind, Except.bind, pure, Except.pure, List.range_succ, loopTrace, restingState]

theorem restingState_holds :
    Holds 10 restingState [11, 12, 13, 14, 15, 16, 17, 18, 19] where
  capW := by decide
  cap := rfl
  len := rfl
  tail_lt := by decide
  size_le := by decide
  head_eq := rfl
  full_iff := by decide
  slots := by
    intro i hi
    simp only [List.length_cons, List.length_nil] at hi
    interval_cases i <;> rfl

/-- C7 as stated fails: when the loop of the driver ends, `GetSize()` is 9, not 10
(the 10th and every later `Put` is followed by a `Pull`, the last of which returns
10), and draining yields 11, ..., 19, without the 10. -/
theorem driver_resting_size_counterexample :
    mainLoop 20 0 (construct 10 (fun _ => 0)) = .ok (loopTrace, restingState) ∧
      restingState.GetSize = 9 ∧ restingState.GetSize ≠ 10 ∧
      drainLoop 20 restingState = .ok (drainTrace, drainedState) ∧
      Event.got 10 ∉ drainTrace ∧ drainTrace.length = 9 := by
  refine ⟨mainLoop_eval _, by decide, by decide, ?_, by decide, rfl⟩
  simp [drainLoop, Pull, IsEmpty, load, modSz, addSz, SIZE_MOD, bind, Except.bind, pure,
    Except.pure, restingState, drainedState, drainTrace]

/-- C7, amended: starting from a fresh `RingBuffer<int>(10)`, for `i = 0..19` do
`Put(i)` and, if `IsFull()` is then true, one `Pull()`. The buffer first reports full
after the 10th push (after `k <= 10` pushes `IsFull()` is `k == 10`, and the first
`Getting` line follows `added: 9`); when the loop ends the resting `GetSize()` is 9
and the buffer holds the values 11..19; draining it with `Pull` until empty (with
fuel at least 9) yields exactly 11, 12, ..., 19 in order, after which `IsEmpty()` is
true. -/
theorem driver_scenario (mem : Nat → Int) (fuel : Nat) (hfuel : 9 ≤ fuel) :
    (∀ k, k ≤ 10 → ∃ rb,
        run (construct 10 mem) ((List.range k).map (fun i : Nat => Op.put (i : Int))) = .ok ([], rb) ∧
          rb.IsFull = decide (k = 10)) ∧
      mainLoop 20 0 (construct 10 mem) = .ok (loopTrace, restingState) ∧
      restingState.GetSize = 9 ∧
      Holds 10 restingState [11, 12, 13, 14, 15, 16, 17, 18, 19] ∧
      drainLoop fuel restingState = .ok (drainTrace, drainedState) ∧
      drainedState.IsEmpty = true ∧
      main mem fuel = .ok (loopTrace ++ Event.emptying :: drainTrace, drainedState) := by
  have hdrain : drainLoop fuel restingState = .ok (drainTrace, drainedState) := by
    obtain ⟨m, rfl⟩ : ∃ m, fuel = m + 9 := ⟨fuel - 9, by omega⟩
    cases m <;>
      simp [drainLoop, Pull, IsEmpty, load, modSz, addSz, SIZE_MOD, bind, Except.bind, pure,
        Except.pure, restingState, drainedState, drainTrace]
  refine ⟨?_, mainLoop_eval mem, by decide, restingState_holds, hdrain, rfl, ?_⟩
  · intro k hk
    have hlen : ((List.range k).map (fun i : Nat => (i : Int))).length = k := by simp
    obtain ⟨rb, hputs, h⟩ :=
      run_puts (by decide : 0 < 10) (by decide) mem ((List.range k).map (fun i : Nat => (i : Int)))
    refine ⟨rb, by simpa [List.map_map, Function.comp_def] using hputs, ?_⟩
    have hq : (List.drop (((List.range k).map (fun i : Nat => (i : Int))).length - 10)
        ((List.range k).map (fun i : Nat => (i : Int)))).length = k := by
      rw [List.length_drop, hlen]
      omega
    rw [h.IsFull_eq, hq]
  · simp [main, mainLoop_eval mem, hdrain, bind, Except.bind, pure, Except.pure]

/-- Witness of C7, amended: storage of zeros and fuel 9. -/
theorem driver_scenario_witness :
    9 ≤ 9 ∧
    ((∀ k, k ≤ 10 → ∃ rb,
        run (construct 10 (fun _ => (0 : Int))) ((List.range k).map (fun i : Nat => Op.put (i : Int))) =
            .ok ([], rb) ∧
          rb.IsFull = decide (k = 10)) ∧
      mainLoop 20 0 (construct 10 (fun _ => (0 : Int))) = .ok (loopTrace, restingState) ∧
      restingState.GetSize = 9 ∧
      Holds 10 restingState [11, 12, 13, 14, 15, 16, 17, 18, 19] ∧
      drainLoop 9 restingState = .ok (drainTrace, drainedState) ∧
      drainedState.IsEmpty = true ∧
      main (fun _ => (0 : Int)) 9 = .ok (loopTrace ++ Event.emptying :: drainTrace, drainedState)) :=
  ⟨by decide, driver_scenario (fun _ => (0 : Int)) 9 (by decide)⟩

/-- C8 (capacity-1 scenario): for every value `v`, on a fresh buffer of capacity 1,
`Put(v)` returns and `IsFull()` is then true; `Pull()` returns `v` and `IsEmpty()`
becomes true; a second `Pull()` returns the default value `T()`, while the slot
still holds the stale `v`. -/
theorem capacity_one_scenario [Inhabited T] (v : T) (mem : Nat → T) :
    ∃ rb1 rb2, (construct 1 mem).Put v = .ok rb1 ∧ rb1.IsFull = true ∧
      rb1.Pull = .ok (v, rb2) ∧ rb2.IsEmpty = true ∧
      rb2.Pull = .ok (default, rb2) ∧ rb2.buf_ = [v] := by
  refine ⟨⟨[v], 0, 0, 1, true⟩, ⟨[v], 0, 0, 1, false⟩, ?_, rfl, ?_, rfl, ?_, rfl⟩
  · simp [Put, construct, store, modSz, addSz, SIZE_MOD, bind, Except.bind, pure, Except.pure,
      List.range_succ]
  · simp [Pull, IsEmpty, load, modSz, addSz, SIZE_MOD, bind, Except.bind, pure, Except.pure]
  · exact Pull_eq_default _ rfl

/-- C9 (cursor range): for every capacity `C > 0` and every finite sequence of `Put`,
`Pull` and `Reset` calls on a freshly constructed buffer, the sequence returns and in
the state it reaches `head_ < C` and `tail_ < C`. The predicate holds in the fresh
state, and each of the three operations, from any state of capacity `C` in which it
holds, returns only states of capacity `C` in which it holds. -/
theorem cursors_in_range [Inhabited T] (C : Nat) (hC : 0 < C) (hW : C < SIZE_MOD)
    (mem : Nat → T) (ops : List (Op T)) :
    (∃ out rb, run (construct C mem) ops = .ok (out, rb) ∧ rb.head_ < C ∧ rb.tail_ < C) ∧
      ((construct C mem).head_ < C ∧ (construct C mem).tail_ < C) ∧
      (∀ rb : RingBuffer T, rb.max_size_ = C → rb.head_ < C → rb.tail_ < C →
        (rb.Reset.max_size_ = C ∧ rb.Reset.head_ < C ∧ rb.Reset.tail_ < C) ∧
        (∀ x rb1, rb.Put x = .ok rb1 → rb1.max_size_ = C ∧ rb1.head_ < C ∧ rb1.tail_ < C) ∧
        (∀ v rb1, rb.Pull = .ok (v, rb1) →
          rb1.max_size_ = C ∧ rb1.head_ < C ∧ rb1.tail_ < C)) := by
  refine ⟨?_, ⟨hC, hC⟩, ?_⟩
  · obtain ⟨rb, hrun, h⟩ := run_refines ops (Holds_construct hC hW mem)
    exact ⟨_, rb, hrun, h.head_lt, h.tail_lt⟩
  · intro rb hcap hh ht
    have hne : C ≠ 0 := by omega
    refine ⟨⟨hcap, ht, ht⟩, ?_, ?_⟩
    · intro x rb1 hput
      unfold Put store modSz at hput
      simp only [hcap, hne, if_false, bind, Except.bind, pure, Except.pure] at hput
      split at hput
      · cases hput
      · next buf hbuf =>
        cases hfull : rb.full_ <;> simp only [hfull, if_true, Bool.false_eq_true, if_false] at hput
        · cases hput
          exact ⟨rfl, Nat.mod_lt _ hC, ht⟩
        · cases hput
          exact ⟨rfl, Nat.mod_lt _ hC, Nat.mod_lt _ hC⟩
    · intro v rb1 hpull
      unfold Pull load modSz at hpull
      simp only [hcap, hne, if_false, bind, Except.bind, pure, Except.pure] at hpull
      split at hpull
      · cases hpull
        exact ⟨hcap, hh, ht⟩
      · split at hpull
        · cases hpull
        · cases hpull
          exact ⟨rfl, hh, Nat.mod_lt _ hC⟩

/-- Witness of C9: capacity 2, a sequence in which both cursors wrap around. -/
theorem cursors_in_range_witness :
    0 < 2 ∧ 2 < SIZE_MOD ∧
    ((∃ out rb, run (construct 2 (fun _ => (0 : Int)))
        [Op.put 1, Op.put 2, Op.put 3, Op.pull, Op.pull, Op.reset] = .ok (out, rb) ∧
      rb.head_ < 2 ∧ rb.tail_ < 2) ∧
      ((construct 2 (fun _ => (0 : Int))).head_ < 2 ∧
        (construct 2 (fun _ => (0 : Int))).tail_ < 2) ∧
      (∀ rb : RingBuffer Int, rb.max_size_ = 2 → rb.head_ < 2 → rb.tail_ < 2 →
        (rb.Reset.max_size_ = 2 ∧ rb.Reset.head_ < 2 ∧ rb.Reset.tail_ < 2) ∧
        (∀ x rb1, rb.Put x = .ok rb1 → rb1.max_size_ = 2 ∧ rb1.head_ < 2 ∧ rb1.tail_ < 2) ∧
        (∀ v rb1, rb.Pull = .ok (v, rb1) →
          rb1.max_size_ = 2 ∧ rb1.head_ < 2 ∧ rb1.tail_ < 2))) :=
  ⟨by decide, by decide,
    cursors_in_range 2 (by decide) (by decide) (fun _ => (0 : Int))
      [Op.put 1, Op.put 2, Op.put 3, Op.pull, Op.pull, Op.reset]⟩

/-- C10 (size bound and full flag): for every capacity `C > 0` and every finite
sequence of `Put`, `Pull` and `Reset` calls on a freshly constructed buffer, the
sequence returns and in the state it reaches `GetSize() <= GetMaxSize()`, and
`IsFull()` is true if and only if `GetSize() == GetMaxSize()`. -/
theorem size_bounded_and_full_iff [Inhabited T] (C : Nat) (hC : 0 < C) (hW : C < SIZE_MOD)
    (mem : Nat → T) (ops : List (Op T)) :
    ∃ out rb, run (construct C mem) ops = .ok (out, rb) ∧
      rb.GetSize ≤ rb.GetMaxSize ∧ (rb.IsFull = true ↔ rb.GetSize = rb.GetMaxSize) := by
  obtain ⟨rb, hrun, h⟩ := run_refines ops (Holds_construct hC hW mem)
  have hmax : rb.GetMaxSize = C := h.cap
  refine ⟨_, rb, hrun, ?_, ?_⟩
  · rw [h.GetSize_eq, hmax]
    exact h.size_le
  · rw [h.GetSize_eq, hmax, h.IsFull_eq]
    simp

/-- Witness of C10: capacity 2, a sequence that overflows the buffer. -/
theorem size_bounded_and_full_iff_witness :
    0 < 2 ∧ 2 < SIZE_MOD ∧
    ∃ out rb, run (construct 2 (fun _ => (0 : Int)))
        [Op.put 1, Op.put 2, Op.put 3, Op.pull, Op.put 4] = .ok (out, rb) ∧
      rb.GetSize ≤ rb.GetMaxSize ∧ (rb.IsFull = true ↔ rb.GetSize = rb.GetMaxSize) :=
  ⟨by decide, by decide,
    size_bounded_and_full_iff 2 (by decide) (by decide) (fun _ => (0 : Int))
      [Op.put 1, Op.put 2, Op.put 3, Op.pull, Op.put 4]⟩

/-- C11 (operations never fail for a valid capacity): for every capacity `C > 0`
and every finite sequence of `Put`, `Pull` and `Reset` calls on a freshly constructed
buffer, the sequence returns (no fault), and in the state it reaches the storage has
`C` slots, `head_` and `tail_` index a slot of it and the divisor `max_size_` is not
zero, so that the next `Put` (also on a full buffer) and the next `Pull` return. -/
theorem operations_never_fault [Inhabited T] (C : Nat) (hC : 0 < C) (hW : C < SIZE_MOD)
    (mem : Nat → T) (ops : List (Op T)) :
    ∃ out rb, run (construct C mem) ops = .ok (out, rb) ∧
      rb.buf_.length = C ∧ rb.head_ < rb.buf_.length ∧ rb.tail_ < rb.buf_.length ∧
      rb.max_size_ ≠ 0 ∧
      (∀ x, ∃ rb1, rb.Put x = .ok rb1) ∧ (∃ v rb1, rb.Pull = .ok (v, rb1)) := by
  obtain ⟨rb, hrun, h⟩ := run_refines ops (Holds_construct hC hW mem)
  have hlen := h.len
  have hh := h.head_lt
  have ht := h.tail_lt
  have hcap := h.cap
  refine ⟨_, rb, hrun, hlen, by omega, by omega, by omega, ?_, ?_⟩
  · intro x
    obtain ⟨rb1, hput, _⟩ := Holds_Put h x
    exact ⟨rb1, hput⟩
  · obtain ⟨rb1, hpull, _⟩ := Holds_Pull h
    exact ⟨_, rb1, hpull⟩

/-- Witness of C11: capacity 2, a sequence that puts on a full buffer and pulls from
an empty one. -/
theorem operations_never_fault_witness :
    0 < 2 ∧ 2 < SIZE_MOD ∧
    ∃ out rb, run (construct 2 (fun _ => (0 : Int)))
        [Op.pull, Op.put 1, Op.put 2, Op.put 3, Op.reset, Op.pull] = .ok (out, rb) ∧
      rb.buf_.length = 2 ∧ rb.head_ < rb.buf_.length ∧ rb.tail_ < rb.buf_.length ∧
      rb.max_size_ ≠ 0 ∧
      (∀ x, ∃ rb1, rb.Put x = .ok rb1) ∧ (∃ v rb1, rb.Pull = .ok (v, rb1)) :=
  ⟨by decide, by decide,
    operations_never_fault 2 (by decide) (by decide) (fun _ => (0 : Int))
      [Op.pull, Op.put 1, Op.put 2, Op.put 3, Op.reset, Op.pull]⟩

/-- C12 (zero capacity is not rejected): the constructor with capacity 0 returns the
state with no storage slot, `head_ = tail_ = 0`, `full_ = false`, `max_size_ = 0`; the
first `Put` on it writes slot 0 of the empty storage, which is the out-of-bounds
fault, and its `(head_ + 1) % max_size_` is the division-by-zero fault; in any state
of capacity 0 whatever `Put` is a fault. -/
theorem zero_capacity_put_faults (mem : Nat → T) (x : T) :
    construct 0 mem = ⟨[], 0, 0, 0, false⟩ ∧
      store (construct 0 mem).buf_ (construct 0 mem).head_ x = .error .outOfBounds ∧
      modSz (addSz (construct 0 mem).head_ 1) (construct 0 mem).max_size_ = .error .divByZero ∧
      (construct 0 mem).Put x = .error .outOfBounds ∧
      (∀ rb : RingBuffer T, rb.max_size_ = 0 → ∃ e, rb.Put x = .error e) := by
  refine ⟨rfl, rfl, rfl, rfl, ?_⟩
  intro rb hcap
  unfold Put store modSz
  simp only [hcap, if_true, bind, Except.bind, pure, Except.pure]
  split
  · exact ⟨_, rfl⟩
  · next buf hbuf =>
    cases hfull : rb.full_ <;> simp

/-- C14 (refinement of a bounded drop-oldest queue): for every capacity `C > 0` and
every finite sequence of `Put(x)`, `Pull` and `Reset` calls on a fresh buffer, the
calls return, the values the `Pull` calls return are those the abstract queue returns
(`specRun` from the empty queue: `Put(x)` appends `x` and drops the first element if
the length was already `C`, `Pull` removes and returns the first element or returns
`T()` on the empty queue, `Reset` empties it), and in the state reached, with `q` the
abstract queue reached, `q.length <= C`, `GetSize() == q.length`,
`IsEmpty() == q.isEmpty` and `IsFull() == (q.length == C)`. Every step of a sequence
is the end of a prefix of it, which is such a sequence. -/
theorem refines_bounded_queue [Inhabited T] (C : Nat) (hC : 0 < C) (hW : C < SIZE_MOD)
    (mem : Nat → T) (ops : List (Op T)) :
    ∃ rb, run (construct C mem) ops = .ok ((specRun C [] ops).1, rb) ∧
      (specRun C [] ops).2.length ≤ C ∧
      rb.GetSize = (specRun C [] ops).2.length ∧
      rb.IsEmpty = (specRun C [] ops).2.isEmpty ∧
      rb.IsFull = decide ((specRun C [] ops).2.length = C) := by
  obtain ⟨rb, hrun, h⟩ := run_refines ops (Holds_construct hC hW mem)
  exact ⟨rb, hrun, h.size_le, h.GetSize_eq, h.IsEmpty_eq, h.IsFull_eq⟩

/-- Witness of C14: capacity 2, a sequence with an overflowing `Put`, a `Reset` and a
`Pull` from the empty buffer. -/
theorem refines_bounded_queue_witness :
    0 < 2 ∧ 2 < SIZE_MOD ∧
    ∃ rb, run (construct 2 (fun _ => (0 : Int)))
        [Op.put 1, Op.put 2, Op.put 3, Op.pull, Op.reset, Op.pull, Op.put 4] =
          .ok ((specRun 2 [] [Op.put 1, Op.put 2, Op.put 3, Op.pull, Op.reset, Op.pull,
            Op.put (4 : Int)]).1, rb) ∧
      (specRun 2 [] [Op.put 1, Op.put 2, Op.put 3, Op.pull, Op.reset, Op.pull,
        Op.put (4 : Int)]).2.length ≤ 2 ∧
      rb.GetSize = (specRun 2 [] [Op.put 1, Op.put 2, Op.put 3, Op.pull, Op.reset, Op.pull,
        Op.put (4 : Int)]).2.length ∧
      rb.IsEmpty = (specRun 2 [] [Op.put 1, Op.put 2, Op.put 3, Op.pull, Op.reset, Op.pull,
        Op.put (4 : Int)]).2.isEmpty ∧
      rb.IsFull = decide ((specRun 2 [] [Op.put 1, Op.put 2, Op.put 3, Op.pull, Op.reset,
        Op.pull, Op.put (4 : Int)]).2.length = 2) :=
  ⟨by decide, by decide,
    refines_bounded_queue 2 (by decide) (by decide) (fun _ => (0 : Int))
      [Op.put 1, Op.put 2, Op.put 3, Op.pull, Op.reset, Op.pull, Op.put 4]⟩

/-- C15 (Put postcondition): in every state of capacity `C > 0` whose storage has
`C` slots and with `head_ < C`, `Put(x)` returns; it stores `x` at the slot of the old
head and leaves every other slot, the number of slots and the capacity unchanged; the
new head is `(old head + 1) mod C`; the new tail is `(old tail + 1) mod C` if the
buffer was full before the call (the sum being the sum of `size_t`, which is the sum
of the numbers for every tail other than the largest `size_t`) and the old tail
otherwise; and the new full flag is `new head == new tail`. -/
theorem Put_postcondition (rb : RingBuffer T) (x : T) (C : Nat) (hC : 0 < C)
    (hW : C < SIZE_MOD) (hcap : rb.max_size_ = C) (hlen : rb.buf_.length = C)
    (hh : rb.head_ < C) :
    ∃ rb1, rb.Put x = .ok rb1 ∧
      rb1.buf_ = rb.buf_.set rb.head_ x ∧
      rb1.buf_[rb.head_]? = some x ∧ (∀ i, i ≠ rb.head_ → rb1.buf_[i]? = rb.buf_[i]?) ∧
      rb1.buf_.length = rb.buf_.length ∧ rb1.max_size_ = C ∧
      rb1.head_ = (rb.head_ + 1) % C ∧
      rb1.tail_ = (if rb.full_ then addSz rb.tail_ 1 % C else rb.tail_) ∧
      (rb.tail_ + 1 < SIZE_MOD →
        rb1.tail_ = if rb.full_ then (rb.tail_ + 1) % C else rb.tail_) ∧
      rb1.full_ = decide (rb1.head_ = rb1.tail_) := by
  have hne : C ≠ 0 := by omega
  have hadd : addSz rb.head_ 1 = rb.head_ + 1 := addSz_of_lt (by omega)
  refine ⟨{ buf_ := rb.buf_.set rb.head_ x
            head_ := (rb.head_ + 1) % C
            tail_ := if rb.full_ then addSz rb.tail_ 1 % C else rb.tail_
            max_size_ := C
            full_ := decide ((rb.head_ + 1) % C =
              if rb.full_ then addSz rb.tail_ 1 % C else rb.tail_) },
    ?_, rfl, ?_, ?_, ?_, rfl, rfl, rfl, ?_, rfl⟩
  · cases hf : rb.full_ <;>
      simp [Put, store, modSz, hlen, hh, hcap, hne, hf, hadd, bind, Except.bind, pure,
        Except.pure]
  · exact List.getElem?_set_self (by omega)
  · intro i hi
    exact List.getElem?_set_ne (Ne.symm hi)
  · simp
  · intro ht
    simp only [addSz_of_lt ht]

/-- Witness of C15: the full buffer of capacity 2 holding 1, 2 with both cursors at
slot 1. -/
theorem Put_postcondition_witness :
    0 < 2 ∧ 2 < SIZE_MOD ∧ (⟨[2, 1], 1, 1, 2, true⟩ : RingBuffer Int).max_size_ = 2 ∧
    (⟨[2, 1], 1, 1, 2, true⟩ : RingBuffer Int).buf_.length = 2 ∧
    (⟨[2, 1], 1, 1, 2, true⟩ : RingBuffer Int).head_ < 2 ∧
    ∃ rb1, (⟨[2, 1], 1, 1, 2, true⟩ : RingBuffer Int).Put 3 = .ok rb1 ∧
      rb1.buf_ = (⟨[2, 1], 1, 1, 2, true⟩ : RingBuffer Int).buf_.set
        (⟨[2, 1], 1, 1, 2, true⟩ : RingBuffer Int).head_ 3 ∧
      rb1.buf_[(⟨[2, 1], 1, 1, 2, true⟩ : RingBuffer Int).head_]? = some 3 ∧
      (∀ i, i ≠ (⟨[2, 1], 1, 1, 2, true⟩ : RingBuffer Int).head_ →
        rb1.buf_[i]? = (⟨[2, 1], 1, 1, 2, true⟩ : RingBuffer Int).buf_[i]?) ∧
      rb1.buf_.length = (⟨[2, 1], 1, 1, 2, true⟩ : RingBuffer Int).buf_.length ∧
      rb1.max_size_ = 2 ∧
      rb1.head_ = ((⟨[2, 1], 1, 1, 2, true⟩ : RingBuffer Int).head_ + 1) % 2 ∧
      rb1.tail_ = (if (⟨[2, 1], 1, 1, 2, true⟩ : RingBuffer Int).full_
        then addSz (⟨[2, 1], 1, 1, 2, true⟩ : RingBuffer Int).tail_ 1 % 2
        else (⟨[2, 1], 1, 1, 2, true⟩ : RingBuffer Int).tail_) ∧
      ((⟨[2, 1], 1, 1, 2, true⟩ : RingBuffer Int).tail_ + 1 < SIZE_MOD →
        rb1.tail_ = if (⟨[2, 1], 1, 1, 2, true⟩ : RingBuffer Int).full_
          then ((⟨[2, 1], 1, 1, 2, true⟩ : RingBuffer Int).tail_ + 1) % 2
          else (⟨[2, 1], 1, 1, 2, true⟩ : RingBuffer Int).tail_) ∧
      rb1.full_ = decide (rb1.head_ = rb1.tail_) :=
  ⟨by decide, by decide, rfl, rfl, by decide,
    Put_postcondition ⟨[2, 1], 1, 1, 2, true⟩ 3 2 (by decide) (by decide) rfl rfl (by decide)⟩

/-- C16 (Pull postcondition on a non-empty buffer): in every state of capacity
`C > 0` whose storage has `C` slots, with `tail_ < C` and `IsEmpty()` false, `Pull`
returns the value stored at the slot of the old tail, sets full to false, sets tail
to `(old tail + 1) mod C`, and leaves head, capacity and the storage unchanged. -/
theorem Pull_postcondition [Inhabited T] (rb : RingBuffer T) (C : Nat) (hC : 0 < C)
    (hW : C < SIZE_MOD) (hcap : rb.max_size_ = C) (hlen : rb.buf_.length = C)
    (ht : rb.tail_ < C) (he : rb.IsEmpty = false) :
    ∃ v rb1, rb.buf_[rb.tail_]? = some v ∧ rb.Pull = .ok (v, rb1) ∧
      rb1.full_ = false ∧ rb1.tail_ = (rb.tail_ + 1) % C ∧ rb1.head_ = rb.head_ ∧
      rb1.max_size_ = rb.max_size_ ∧ rb1.buf_ = rb.buf_ := by
  have hv : rb.buf_[rb.tail_]? = some (rb.buf_.get ⟨rb.tail_, by omega⟩) := by
    simp [List.getElem?_eq_getElem, hlen, ht]
  have hpull := Pull_eq_ok rb _ he hv (by omega) (by omega)
  exact ⟨_, _, hv, hpull, rfl, by simp [hcap], rfl, rfl, rfl⟩

/-- Witness of C16: the buffer of capacity 3 holding 8, 9 from slot 2 on (the tail is
numerically after the head). -/
theorem Pull_postcondition_witness :
    0 < 3 ∧ 3 < SIZE_MOD ∧ (⟨[9, 7, 8], 1, 2, 3, false⟩ : RingBuffer Int).max_size_ = 3 ∧
    (⟨[9, 7, 8], 1, 2, 3, false⟩ : RingBuffer Int).buf_.length = 3 ∧
    (⟨[9, 7, 8], 1, 2, 3, false⟩ : RingBuffer Int).tail_ < 3 ∧
    (⟨[9, 7, 8], 1, 2, 3, false⟩ : RingBuffer Int).IsEmpty = false ∧
    ∃ v rb1, (⟨[9, 7, 8], 1, 2, 3, false⟩ : RingBuffer Int).buf_[
        (⟨[9, 7, 8], 1, 2, 3, false⟩ : RingBuffer Int).tail_]? = some v ∧
      (⟨[9, 7, 8], 1, 2, 3, false⟩ : RingBuffer Int).Pull = .ok (v, rb1) ∧
      rb1.full_ = false ∧
      rb1.tail_ = ((⟨[9, 7, 8], 1, 2, 3, false⟩ : RingBuffer Int).tail_ + 1) % 3 ∧
      rb1.head_ = (⟨[9, 7, 8], 1, 2, 3, false⟩ : RingBuffer Int).head_ ∧
      rb1.max_size_ = (⟨[9, 7, 8], 1, 2, 3, false⟩ : RingBuffer Int).max_size_ ∧
      rb1.buf_ = (⟨[9, 7, 8], 1, 2, 3, false⟩ : RingBuffer Int).buf_ :=
  ⟨by decide, by decide, rfl, rfl, by decide, rfl,
    Pull_postcondition ⟨[9, 7, 8], 1, 2, 3, false⟩ 3 (by decide) (by decide) rfl rfl
      (by decide) rfl⟩

/-! ### Helpers for the step laws and for stale storage -/

/-- The three cases of `GetSize()` on a state that holds a queue. -/
theorem Holds.GetSize_cases {C : Nat} {rb : RingBuffer T} {q : List T} (h : Holds C rb q) :
    (rb.IsFull = true → rb.GetSize = C) ∧
      (rb.IsFull = false → rb.tail_ ≤ rb.head_ → rb.GetSize = rb.head_ - rb.tail_) ∧
      (rb.IsFull = false → rb.head_ < rb.tail_ → rb.GetSize = C + rb.head_ - rb.tail_) := by
  have hC := h.capW
  have ht := h.tail_lt
  have hh := h.head_lt
  have hcap := h.cap
  unfold IsFull GetSize
  refine ⟨?_, ?_, ?_⟩
  · intro hf
    simp [hf, hcap]
  · intro hf hle
    simp only [hf, Bool.not_false, if_true]
    rw [if_pos hle, subSz_of_le hle (by omega)]
  · intro hf hlt
    simp only [hf, Bool.not_false, if_true]
    rw [if_neg (by omega), hcap, subSz_addSz_wrap hC hlt ht]

theorem Holds_of_empty {C : Nat} {rb : RingBuffer T} (hW : C < SIZE_MOD)
    (hcap : rb.max_size_ = C) (hlen : rb.buf_.length = C) (ht : rb.tail_ < C)
    (he : rb.IsEmpty = true) : Holds C rb [] := by
  simp only [IsEmpty, Bool.and_eq_true, Bool.not_eq_true', decide_eq_true_eq] at he
  refine ⟨hW, hcap, hlen, ht, Nat.zero_le _, ?_, ?_, ?_⟩
  · simp only [List.length_nil, Nat.add_zero]
    rw [he.2]
    exact (Nat.mod_eq_of_lt ht).symm
  · simp only [he.1, List.length_nil]
    constructor
    · intro hb
      cases hb
    · intro hb
      omega
  · intro i hi
    simp at hi

theorem Reset_of_empty (rb : RingBuffer T) (he : rb.IsEmpty = true) : rb.Reset = rb := by
  simp only [IsEmpty, Bool.and_eq_true, Bool.not_eq_true', decide_eq_true_eq] at he
  cases rb
  simp only [Reset] at *
  simp [he.1, he.2]

/-- Two states that agree on everything but the storage content give the same
results of `GetSize()`, `IsEmpty()` and `IsFull()`. -/
theorem observe_agree (rb1 rb2 : RingBuffer T) (out : List T)
    (hcap : rb1.max_size_ = rb2.max_size_) (hhead : rb1.head_ = rb2.head_)
    (htail : rb1.tail_ = rb2.tail_) (hfull : rb1.full_ = rb2.full_) :
    observe (.ok (out, rb1)) = observe (.ok (out, rb2)) := by
  simp [observe, GetSize, IsEmpty, IsFull, hcap, hhead, htail, hfull]

/-- An empty state whose cursors are outside the storage: `Pull` and `Reset` leave it
as it is and `Put` is a fault, whatever the storage holds. -/
theorem run_stuck_observe [Inhabited T] (rb1 rb2 : RingBuffer T)
    (hcap : rb1.max_size_ = rb2.max_size_) (hhead : rb1.head_ = rb2.head_)
    (htail : rb1.tail_ = rb2.tail_) (hfull : rb1.full_ = rb2.full_)
    (he1 : rb1.IsEmpty = true) (he2 : rb2.IsEmpty = true)
    (h1 : rb1.buf_.length ≤ rb1.head_) (h2 : rb2.buf_.length ≤ rb2.head_)
    (ops : List (Op T)) : observe (run rb1 ops) = observe (run rb2 ops) := by
  induction ops with
  | nil => exact observe_agree rb1 rb2 [] hcap hhead htail hfull
  | cons op ops ih =>
    cases op with
    | put item =>
      have e1 : rb1.Put item = .error .outOfBounds := by
        simp [Put, store, Nat.not_lt.mpr h1, bind, Except.bind]
      have e2 : rb2.Put item = .error .outOfBounds := by
        simp [Put, store, Nat.not_lt.mpr h2, bind, Except.bind]
      simp [run, e1, e2, bind, Except.bind]
    | pull =>
      have e1 := Pull_eq_default rb1 he1
      have e2 := Pull_eq_default rb2 he2
      cases r1 : run rb1 ops <;> cases r2 : run rb2 ops <;>
        simp [r1, r2, observe] at ih <;>
        simp [run, e1, e2, r1, r2, observe, bind, Except.bind, pure, Except.pure, ih]
    | reset =>
      simp only [run, Reset_of_empty rb1 he1, Reset_of_empty rb2 he2]
      exact ih

/-- C17 (size step law): for every capacity `C > 0`, in the state `rb` that a finite
sequence of `Put`, `Pull` and `Reset` calls on a fresh buffer reaches (the sequence
returns), with `s` the value of `GetSize()`: `Put(x)` returns a state with
`GetSize() == min(s + 1, C)` and `IsEmpty()` false; if `rb` is not empty `Pull` returns
a state with `GetSize() == s - 1` and `IsFull()` false; and `GetSize()` is `C` if
full, else `head - tail` if `head >= tail`, else `C + head - tail` (tail numerically
after head). -/
theorem size_step_law [Inhabited T] (C : Nat) (hC : 0 < C) (hW : C < SIZE_MOD)
    (mem : Nat → T) (ops : List (Op T)) :
    ∃ out rb, run (construct C mem) ops = .ok (out, rb) ∧
      (∀ x, ∃ rb1, rb.Put x = .ok rb1 ∧ rb1.GetSize = min (rb.GetSize + 1) C ∧
        rb1.IsEmpty = false) ∧
      (rb.IsEmpty = false → ∃ v rb1, rb.Pull = .ok (v, rb1) ∧
        rb1.GetSize = rb.GetSize - 1 ∧ rb1.IsFull = false) ∧
      (rb.IsFull = true → rb.GetSize = C) ∧
      (rb.IsFull = false → rb.tail_ ≤ rb.head_ → rb.GetSize = rb.head_ - rb.tail_) ∧
      (rb.IsFull = false → rb.head_ < rb.tail_ → rb.GetSize = C + rb.head_ - rb.tail_) := by
  obtain ⟨rb, hrun, h⟩ := run_refines ops (Holds_construct hC hW mem)
  have hle := h.size_le
  refine ⟨_, rb, hrun, ?_, ?_, h.GetSize_cases⟩
  · intro x
    obtain ⟨rb1, hput, h1⟩ := Holds_Put h x
    have hlen : (specPut C (specRun C [] ops).2 x).length =
        min ((specRun C [] ops).2.length + 1) C := by
      unfold specPut
      split <;> simp <;> omega
    refine ⟨rb1, hput, ?_, ?_⟩
    · rw [h1.GetSize_eq, h.GetSize_eq, hlen]
    · rw [h1.IsEmpty_eq]
      cases hq : specPut C (specRun C [] ops).2 x with
      | nil =>
        rw [hq] at hlen
        simp only [List.length_nil] at hlen
        omega
      | cons a q => rfl
  · intro he
    obtain ⟨rb1, hpull, h1⟩ := Holds_Pull h
    rw [h.IsEmpty_eq] at he
    refine ⟨_, rb1, hpull, ?_, ?_⟩
    · rw [h1.GetSize_eq, h.GetSize_eq]
      cases hq : (specRun C [] ops).2 with
      | nil => rfl
      | cons a q => simp [specPull]
    · rw [h1.IsFull_eq]
      cases hq : (specRun C [] ops).2 with
      | nil => simp [hq] at he
      | cons a q =>
        rw [hq] at hle
        simp only [List.length_cons] at hle
        simp only [specPull, decide_eq_false_iff_not]
        omega

/-- Witness of C17: capacity 3, a sequence after which the tail (slot 2) is
numerically after the head (slot 0) and one element is held. -/
theorem size_step_law_witness :
    0 < 3 ∧ 3 < SIZE_MOD ∧
    ∃ out rb, run (construct 3 (fun _ => (0 : Int)))
        [Op.put 1, Op.put 2, Op.put 3, Op.pull, Op.pull] = .ok (out, rb) ∧
      (∀ x, ∃ rb1, rb.Put x = .ok rb1 ∧ rb1.GetSize = min (rb.GetSize + 1) 3 ∧
        rb1.IsEmpty = false) ∧
      (rb.IsEmpty = false → ∃ v rb1, rb.Pull = .ok (v, rb1) ∧
        rb1.GetSize = rb.GetSize - 1 ∧ rb1.IsFull = false) ∧
      (rb.IsFull = true → rb.GetSize = 3) ∧
      (rb.IsFull = false → rb.tail_ ≤ rb.head_ → rb.GetSize = rb.head_ - rb.tail_) ∧
      (rb.IsFull = false → rb.head_ < rb.tail_ → rb.GetSize = 3 + rb.head_ - rb.tail_) :=
  ⟨by decide, by decide,
    size_step_law 3 (by decide) (by decide) (fun _ => (0 : Int))
      [Op.put 1, Op.put 2, Op.put 3, Op.pull, Op.pull]⟩

/-- The final queue of the bounded queue run on two call sequences in a row. -/
theorem specRun_append_snd [Inhabited T] (C : Nat) (ops1 ops2 : List (Op T)) :
    ∀ q : List T, (specRun C q (ops1 ++ ops2)).2 = (specRun C (specRun C q ops1).2 ops2).2 := by
  induction ops1 with
  | nil => intro q; rfl
  | cons op ops1 ih =>
    intro q
    cases op <;> simp [specRun, ih]

/-- After `C` or more `Put` calls the bounded queue has `C` elements. -/
theorem specRun_puts_length [Inhabited T] {C : Nat} (q : List T) (hq : q.length ≤ C)
    (xs : List T) (hxs : C ≤ xs.length) :
    (specRun C q (xs.map Op.put)).2.length = C := by
  rw [specRun_puts, foldl_specPut xs q hq]
  simp only [List.length_drop, List.length_append]
  omega

/-- On a full state that holds a queue the cursors coincide, and `Put(x)` writes
exactly the slot at `tail_`, which holds the first element `v` of the queue (the value
the next `Pull` returns); the queue `v :: rest` becomes `rest ++ [x]`. -/
theorem Holds.put_on_full [Inhabited T] {C : Nat} {rb : RingBuffer T} {q : List T}
    (h : Holds C rb q) (hfull : rb.full_ = true) :
    rb.head_ = rb.tail_ ∧
      ∀ x, ∃ v rest rb1 rb2 s1 s2,
        rb.buf_[rb.tail_]? = some v ∧ rb.Pull = .ok (v, rb2) ∧
        rb.Put x = .ok rb1 ∧ rb1.buf_ = rb.buf_.set rb.tail_ x ∧
        rb1.buf_[rb.tail_]? = some x ∧
        (∀ i, i ≠ rb.tail_ → rb1.buf_[i]? = rb.buf_[i]?) ∧
        run rb (List.replicate C Op.pull) = .ok (v :: rest, s1) ∧
        run rb1 (List.replicate C Op.pull) = .ok (rest ++ [x], s2) := by
  have hlen : q.length = C := h.full_iff.mp hfull
  have ht := h.tail_lt
  have hlenb := h.len
  have hcap := h.cap
  have hW2 := h.capW
  have hht : rb.head_ = rb.tail_ := by
    rw [h.head_eq, hlen, Nat.add_mod_right]
    exact Nat.mod_eq_of_lt ht
  refine ⟨hht, ?_⟩
  intro x
  obtain ⟨rb1, hput, h1⟩ := Holds_Put h x
  obtain ⟨rb2, hpull, _⟩ := Holds_Pull h
  obtain ⟨s1, hpulls, _⟩ := run_pulls h
  obtain ⟨s2, hpulls1, _⟩ := run_pulls h1
  have hput2 := Put_eq_ok rb x (by omega) (by omega) (by omega) (by omega)
  have hrb1 : rb1.buf_ = rb.buf_.set rb.tail_ x := by
    have e := Except.ok.inj (hput.symm.trans hput2)
    rw [e, hht]
  have hnew : rb1.buf_[rb.tail_]? = some x := by
    rw [hrb1]
    exact List.getElem?_set_self (by omega)
  have hother : ∀ i, i ≠ rb.tail_ → rb1.buf_[i]? = rb.buf_[i]? := by
    intro i hi
    rw [hrb1]
    exact List.getElem?_set_ne (Ne.symm hi)
  cases q with
  | nil =>
    simp only [List.length_nil] at hlen
    omega
  | cons v rest =>
    have hslot : rb.buf_[rb.tail_]? = some v := by
      have := h.slots 0 (by simp)
      simpa [Nat.mod_eq_of_lt ht] using this
    have hq2 : specPut C (v :: rest) x = rest ++ [x] := by
      simp [specPut, hlen]
    rw [hq2] at hpulls1
    have hlen2 : (rest ++ [x]).length = C := by
      simp only [List.length_cons] at hlen
      simp
      omega
    rw [hlen] at hpulls
    rw [hlen2] at hpulls1
    exact ⟨v, rest, rb1, rb2, s1, s2, hslot, hpull, hput, hrb1, hnew, hother, hpulls, hpulls1⟩

/-- C18 (full implies coinciding cursors): for every capacity `C > 0`, in the state
`rb` that a finite sequence of `Put`, `Pull` and `Reset` calls on a fresh buffer
reaches, `full_ == true` implies `head_ == tail_`; then `Put(x)` writes exactly the
slot at `tail_` (no other slot), which holds the value `v` the next `Pull` would have
returned, and `v` is the only element lost: `C` calls of `Pull` return `v` followed by
`rest` before the `Put`, and `rest` followed by `x` after it. Full states are reached:
`C` or more `Put` calls after any such sequence leave the buffer full, with the
cursors coinciding and the `Put` on it overwriting the oldest element as said. -/
theorem full_implies_cursors_coincide [Inhabited T] (C : Nat) (hC : 0 < C)
    (hW : C < SIZE_MOD) (mem : Nat → T) (ops : List (Op T)) (xs : List T)
    (hxs : C ≤ xs.length) :
    (∃ out rb, run (construct C mem) ops = .ok (out, rb) ∧
      (rb.full_ = true → rb.head_ = rb.tail_ ∧
        ∀ x, ∃ v rest rb1 rb2 s1 s2,
          rb.buf_[rb.tail_]? = some v ∧ rb.Pull = .ok (v, rb2) ∧
          rb.Put x = .ok rb1 ∧ rb1.buf_ = rb.buf_.set rb.tail_ x ∧
          rb1.buf_[rb.tail_]? = some x ∧
          (∀ i, i ≠ rb.tail_ → rb1.buf_[i]? = rb.buf_[i]?) ∧
          run rb (List.replicate C Op.pull) = .ok (v :: rest, s1) ∧
          run rb1 (List.replicate C Op.pull) = .ok (rest ++ [x], s2))) ∧
    (∃ out rb, run (construct C mem) (ops ++ xs.map Op.put) = .ok (out, rb) ∧
      rb.full_ = true ∧ rb.IsFull = true ∧ rb.head_ = rb.tail_ ∧
        ∀ x, ∃ v rest rb1 rb2 s1 s2,
          rb.buf_[rb.tail_]? = some v ∧ rb.Pull = .ok (v, rb2) ∧
          rb.Put x = .ok rb1 ∧ rb1.buf_ = rb.buf_.set rb.tail_ x ∧
          rb1.buf_[rb.tail_]? = some x ∧
          (∀ i, i ≠ rb.tail_ → rb1.buf_[i]? = rb.buf_[i]?) ∧
          run rb (List.replicate C Op.pull) = .ok (v :: rest, s1) ∧
          run rb1 (List.replicate C Op.pull) = .ok (rest ++ [x], s2)) := by
  constructor
  · obtain ⟨rb, hrun, h⟩ := run_refines ops (Holds_construct hC hW mem)
    exact ⟨_, rb, hrun, fun hfull => h.put_on_full hfull⟩
  · obtain ⟨_, _, h0⟩ := run_refines ops (Holds_construct hC hW mem)
    obtain ⟨rb, hrun, h⟩ := run_refines (ops ++ xs.map Op.put) (Holds_construct hC hW mem)
    have hlen : (specRun C [] (ops ++ xs.map Op.put)).2.length = C := by
      rw [specRun_append_snd]
      exact specRun_puts_length _ h0.size_le xs hxs
    have hfull : rb.full_ = true := h.full_iff.mpr hlen
    have hp := h.put_on_full hfull
    exact ⟨_, rb, hrun, hfull, hfull, hp.1, hp.2⟩

/-- Witness of C18: capacity 2; after `Put(1)`, `Pull()` the three calls `Put(2)`,
`Put(3)`, `Put(4)` leave the buffer full (holding 3, 4, both cursors at slot 0). -/
theorem full_implies_cursors_coincide_witness :
    0 < 2 ∧ 2 < SIZE_MOD ∧ 2 ≤ [(2 : Int), 3, 4].length ∧
    ((∃ out rb, run (construct 2 (fun _ => (0 : Int))) [Op.put 1, Op.pull] = .ok (out, rb) ∧
      (rb.full_ = true → rb.head_ = rb.tail_ ∧
        ∀ x, ∃ v rest rb1 rb2 s1 s2,
          rb.buf_[rb.tail_]? = some v ∧ rb.Pull = .ok (v, rb2) ∧
          rb.Put x = .ok rb1 ∧ rb1.buf_ = rb.buf_.set rb.tail_ x ∧
          rb1.buf_[rb.tail_]? = some x ∧
          (∀ i, i ≠ rb.tail_ → rb1.buf_[i]? = rb.buf_[i]?) ∧
          run rb (List.replicate 2 Op.pull) = .ok (v :: rest, s1) ∧
          run rb1 (List.replicate 2 Op.pull) = .ok (rest ++ [x], s2))) ∧
    (∃ out rb, run (construct 2 (fun _ => (0 : Int)))
        ([Op.put 1, Op.pull] ++ [(2 : Int), 3, 4].map Op.put) = .ok (out, rb) ∧
      rb.full_ = true ∧ rb.IsFull = true ∧ rb.head_ = rb.tail_ ∧
        ∀ x, ∃ v rest rb1 rb2 s1 s2,
          rb.buf_[rb.tail_]? = some v ∧ rb.Pull = .ok (v, rb2) ∧
          rb.Put x = .ok rb1 ∧ rb1.buf_ = rb.buf_.set rb.tail_ x ∧
          rb1.buf_[rb.tail_]? = some x ∧
          (∀ i, i ≠ rb.tail_ → rb1.buf_[i]? = rb.buf_[i]?) ∧
          run rb (List.replicate 2 Op.pull) = .ok (v :: rest, s1) ∧
          run rb1 (List.replicate 2 Op.pull) = .ok (rest ++ [x], s2))) :=
  ⟨by decide, by decide, by decide,
    full_implies_cursors_coincide 2 (by decide) (by decide) (fun _ => (0 : Int))
      [Op.put 1, Op.pull] [2, 3, 4] (by decide)⟩

/-- C19 (emptiness agrees with size): for every capacity `C > 0`, in the state that
a finite sequence of `Put`, `Pull` and `Reset` calls on a fresh buffer reaches (the
sequence returns), `IsEmpty()` is true if and only if `GetSize() == 0`, and
`IsEmpty()` and `IsFull()` are not both true. -/
theorem empty_iff_size_zero [Inhabited T] (C : Nat) (hC : 0 < C) (hW : C < SIZE_MOD)
    (mem : Nat → T) (ops : List (Op T)) :
    ∃ out rb, run (construct C mem) ops = .ok (out, rb) ∧
      (rb.IsEmpty = true ↔ rb.GetSize = 0) ∧ ¬ (rb.IsEmpty = true ∧ rb.IsFull = true) := by
  obtain ⟨rb, hrun, h⟩ := run_refines ops (Holds_construct hC hW mem)
  refine ⟨_, rb, hrun, ?_, ?_⟩
  · rw [h.IsEmpty_eq, h.GetSize_eq]
    cases (specRun C [] ops).2 <;> simp
  · intro hboth
    have he := hboth.1
    have hf := hboth.2
    simp only [IsEmpty, Bool.and_eq_true, Bool.not_eq_true'] at he
    simp only [IsFull] at hf
    rw [he.1] at hf
    cases hf

/-- Witness of C19: capacity 2, a sequence that fills the buffer and empties it. -/
theorem empty_iff_size_zero_witness :
    0 < 2 ∧ 2 < SIZE_MOD ∧
    ∃ out rb, run (construct 2 (fun _ => (0 : Int)))
        [Op.put 1, Op.put 2, Op.pull, Op.pull] = .ok (out, rb) ∧
      (rb.IsEmpty = true ↔ rb.GetSize = 0) ∧ ¬ (rb.IsEmpty = true ∧ rb.IsFull = true) :=
  ⟨by decide, by decide,
    empty_iff_size_zero 2 (by decide) (by decide) (fun _ => (0 : Int))
      [Op.put 1, Op.put 2, Op.pull, Op.pull]⟩

/-- C20 (stale storage is unobservable): for every two buffer states of capacity
`C` (any `C`, so every `C > 0`) with `C` storage slots each that are both empty and
agree on head, tail and full, whatever values their slots hold, the same finite
sequence of `Put`, `Pull` and `Reset` calls observes the same on both: the same values
returned by the `Pull` calls and the same results of `GetSize()`, `IsEmpty()` and
`IsFull()` (or the same fault); with the cursors inside the storage (`tail_ < C`) both
sequences return. Each step of a sequence is the end of a prefix of it, which is such
a sequence. -/
theorem stale_storage_unobservable [Inhabited T] (C : Nat) (hW : C < SIZE_MOD)
    (rb1 rb2 : RingBuffer T) (hcap1 : rb1.max_size_ = C) (hcap2 : rb2.max_size_ = C)
    (hlen1 : rb1.buf_.length = C) (hlen2 : rb2.buf_.length = C)
    (hhead : rb1.head_ = rb2.head_) (htail : rb1.tail_ = rb2.tail_)
    (hfull : rb1.full_ = rb2.full_) (he1 : rb1.IsEmpty = true) (he2 : rb2.IsEmpty = true)
    (ops : List (Op T)) :
    observe (run rb1 ops) = observe (run rb2 ops) ∧
      (rb1.tail_ < C → ∃ out s1 s2, run rb1 ops = .ok (out, s1) ∧ run rb2 ops = .ok (out, s2) ∧
        s1.GetSize = s2.GetSize ∧ s1.IsEmpty = s2.IsEmpty ∧ s1.IsFull = s2.IsFull) := by
  have hboth : rb1.tail_ < C → ∃ out s1 s2, run rb1 ops = .ok (out, s1) ∧
      run rb2 ops = .ok (out, s2) ∧
      s1.GetSize = s2.GetSize ∧ s1.IsEmpty = s2.IsEmpty ∧ s1.IsFull = s2.IsFull := by
    intro ht
    obtain ⟨s1, hrun1, h1⟩ := run_refines ops (Holds_of_empty hW hcap1 hlen1 ht he1)
    obtain ⟨s2, hrun2, h2⟩ :=
      run_refines ops (Holds_of_empty hW hcap2 hlen2 (by omega) he2)
    exact ⟨_, s1, s2, hrun1, hrun2, by rw [h1.GetSize_eq, h2.GetSize_eq],
      by rw [h1.IsEmpty_eq, h2.IsEmpty_eq], by rw [h1.IsFull_eq, h2.IsFull_eq]⟩
  refine ⟨?_, hboth⟩
  by_cases ht : rb1.tail_ < C
  · obtain ⟨out, s1, s2, hrun1, hrun2, hs, hemp, hfl⟩ := hboth ht
    simp [hrun1, hrun2, observe, hs, hemp, hfl]
  · simp only [IsEmpty, Bool.and_eq_true, Bool.not_eq_true', decide_eq_true_eq] at he1 he2
    have hh1 := he1.2
    have hh2 := he2.2
    refine run_stuck_observe rb1 rb2 (by omega) hhead htail hfull ?_ ?_ (by omega) (by omega) ops
    · simp [IsEmpty, he1.1, he1.2]
    · simp [IsEmpty, he2.1, he2.2]

/-- Witness of C20: capacity 2, cursors at slot 1, stale values 4, 5 in one storage
and zeros in the other. -/
theorem stale_storage_unobservable_witness :
    2 < SIZE_MOD ∧
    (⟨[4, 5], 1, 1, 2, false⟩ : RingBuffer Int).IsEmpty = true ∧
    (⟨[0, 0], 1, 1, 2, false⟩ : RingBuffer Int).IsEmpty = true ∧
    (observe (run (⟨[4, 5], 1, 1, 2, false⟩ : RingBuffer Int)
        [Op.pull, Op.put 7, Op.pull, Op.pull, Op.put 8, Op.put 9, Op.put 10, Op.pull]) =
      observe (run (⟨[0, 0], 1, 1, 2, false⟩ : RingBuffer Int)
        [Op.pull, Op.put 7, Op.pull, Op.pull, Op.put 8, Op.put 9, Op.put 10, Op.pull]) ∧
      ((⟨[4, 5], 1, 1, 2, false⟩ : RingBuffer Int).tail_ < 2 → ∃ out s1 s2,
        run (⟨[4, 5], 1, 1, 2, false⟩ : RingBuffer Int)
          [Op.pull, Op.put 7, Op.pull, Op.pull, Op.put 8, Op.put 9, Op.put 10, Op.pull] =
            .ok (out, s1) ∧
        run (⟨[0, 0], 1, 1, 2, false⟩ : RingBuffer Int)
          [Op.pull, Op.put 7, Op.pull, Op.pull, Op.put 8, Op.put 9, Op.put 10, Op.pull] =
            .ok (out, s2) ∧
        s1.GetSize = s2.GetSize ∧ s1.IsEmpty = s2.IsEmpty ∧ s1.IsFull = s2.IsFull)) :=
  ⟨by decide, rfl, rfl,
    stale_storage_unobservable 2 (by decide) ⟨[4, 5], 1, 1, 2, false⟩
      ⟨[0, 0], 1, 1, 2, false⟩ rfl rfl rfl rfl rfl rfl rfl rfl rfl
      [Op.pull, Op.put 7, Op.pull, Op.pull, Op.put 8, Op.put 9, Op.put 10, Op.pull]⟩

end RingBuffer
